import Mathlib

/-!
Shallow embedding of the reinforceflow asynchronous N-step Q-learning core
(`reinforceflow/agents/async_dqn.py`, `reinforceflow/core/base_agent.py`),
together with the leaf utilities (discounting, incremental statistics,
epsilon-greedy schedule) that the agents use.  Real-valued quantities are
modelled with `ℚ`; observations and actions with `ℕ`.
-/

namespace ReinforceFlow

/-! ## Discounting utility -/

/-- Modelled from the spec: `reinforceflow.utils.discount_rewards` is not in the
source tree (only its caller `_ThreadDQNLearner._train_on_batch` is).  Per the
spec, given an ordered reward sequence, a discount factor `gamma` and a
bootstrap value `er` for the step following the sequence, it returns the
same-length sequence of n-step targets computed by backward recurrence:
the output at the last index equals `r_last + gamma * er`, and each earlier
output equals its immediate reward plus `gamma` times the next output. -/
def discount_rewards : List ℚ → ℚ → ℚ → List ℚ
  | [], _, _ => []
  | r :: rest, gamma, er =>
      let tail := discount_rewards rest gamma er
      (r + gamma * tail.headD er) :: tail

theorem discount_rewards_length (r : List ℚ) (gamma er : ℚ) :
    (discount_rewards r gamma er).length = r.length := by
  induction r with
  | nil => rfl
  | cons a rest ih => simp [discount_rewards, ih]

theorem discount_rewards_last (r : List ℚ) (gamma er : ℚ) (h : r ≠ []) :
    (discount_rewards r gamma er).getD (r.length - 1) 0 =
      r.getD (r.length - 1) 0 + gamma * er := by
  induction r with
  | nil => exact absurd rfl h
  | cons a rest ih =>
    cases rest with
    | nil => simp [discount_rewards]
    | cons b rest' =>
      have hne : (b :: rest') ≠ [] := by simp
      have hidx : (a :: b :: rest').length - 1 = ((b :: rest').length - 1) + 1 := by
        simp [List.length_cons]
      rw [hidx]
      show ((a + gamma * (discount_rewards (b :: rest') gamma er).headD er) ::
        discount_rewards (b :: rest') gamma er).getD (((b :: rest').length - 1) + 1) 0 = _
      rw [List.getD_cons_succ, List.getD_cons_succ]
      exact ih hne

theorem discount_rewards_recurrence (r : List ℚ) (gamma er : ℚ) :
    ∀ i, i + 1 < r.length →
      (discount_rewards r gamma er).getD i 0 =
        r.getD i 0 +
          gamma * (discount_rewards r gamma er).getD (i + 1) 0 := by
  induction r with
  | nil => intro i hi; simp at hi
  | cons a rest ih =>
    intro i hi
    cases i with
    | zero =>
      -- rest is nonempty since 1 < (a :: rest).length
      cases rest with
      | nil => simp at hi
      | cons b rest' =>
        simp [discount_rewards]
    | succ k =>
      have hk : k + 1 < rest.length := by
        simpa [List.length_cons] using hi
      simp only [discount_rewards, List.getD_cons_succ]
      exact ih k hk

/-- C1: for every reward sequence of length `k ≥ 1`, `gamma ∈ [0,1)` and
bootstrap `b`, the discounting utility returns a same-length sequence whose
entry at index `k-1` equals `r[k-1] + gamma*b` and whose entry at index `i`
equals `r[i] + gamma * output[i+1]` for every `i < k-1`; as a Lean function it
is deterministic and has no side effects. -/
theorem discount_rewards_spec (r : List ℚ) (gamma b : ℚ)
    (hk : 1 ≤ r.length) (h0 : 0 ≤ gamma) (h1 : gamma < 1) :
    (discount_rewards r gamma b).length = r.length ∧
    (discount_rewards r gamma b).getD (r.length - 1) 0 =
      r.getD (r.length - 1) 0 + gamma * b ∧
    (∀ i, i + 1 < r.length →
      (discount_rewards r gamma b).getD i 0 =
        r.getD i 0 + gamma * (discount_rewards r gamma b).getD (i + 1) 0) := by
  refine ⟨discount_rewards_length r gamma b, ?_, discount_rewards_recurrence r gamma b⟩
  have hne : r ≠ [] := by
    intro h; rw [h] at hk; simp at hk
  exact discount_rewards_last r gamma b hne

/-- Witness for C1 at `r = [1, 2]`, `gamma = 1/2`, `b = 4`. -/
theorem discount_rewards_spec_witness :
    1 ≤ ([(1 : ℚ), 2]).length ∧ (0 : ℚ) ≤ 1/2 ∧ (1 : ℚ)/2 < 1 ∧
    ((discount_rewards [(1 : ℚ), 2] (1/2) 4).length = ([(1 : ℚ), 2]).length ∧
     (discount_rewards [(1 : ℚ), 2] (1/2) 4).getD (([(1 : ℚ), 2]).length - 1) 0 =
       ([(1 : ℚ), 2]).getD (([(1 : ℚ), 2]).length - 1) 0 + (1/2) * 4 ∧
     (∀ i, i + 1 < ([(1 : ℚ), 2]).length →
       (discount_rewards [(1 : ℚ), 2] (1/2) 4).getD i 0 =
         ([(1 : ℚ), 2]).getD i 0 +
           (1/2) * (discount_rewards [(1 : ℚ), 2] (1/2) 4).getD (i + 1) 0)) :=
  ⟨by decide, by norm_num, by norm_num,
   discount_rewards_spec [(1 : ℚ), 2] (1/2) 4 (by decide) (by norm_num) (by norm_num)⟩

/-! ## Incremental statistics accumulator -/

/-- Modelled from the spec: `reinforceflow.utils.IncrementalAverage` is not in
the source tree (only its callers in `_ThreadDQNLearner` are).  Per the spec it
maintains a running count, sum, max and min over a stream of scalars, without
retaining history; max and min are empty (`none`) before any `add`. -/
structure IncrementalAverage where
  total : ℚ
  counter : ℕ
  maxVal : Option ℚ
  minVal : Option ℚ
  deriving Repr, DecidableEq

namespace IncrementalAverage

/-- The empty accumulator state (fresh construction or just after `reset`). -/
def empty : IncrementalAverage := ⟨0, 0, none, none⟩

/-- `add(value)`: updates running sum, count, max and min. -/
def add (s : IncrementalAverage) (v : ℚ) : IncrementalAverage :=
  { total := s.total + v
    counter := s.counter + 1
    maxVal := some (match s.maxVal with | none => v | some m => max m v)
    minVal := some (match s.minVal with | none => v | some m => min m v) }

/-- `compute_average()`: sum over count; defined (0) when queried before any
`add`, per the spec requirement of defined behavior for zero additions. -/
def compute_average (s : IncrementalAverage) : ℚ :=
  if s.counter = 0 then 0 else s.total / s.counter

/-- `length`: number of values added since the last reset. -/
def length (s : IncrementalAverage) : ℕ := s.counter

/-- `reset()`: returns the pre-reset average and clears all accumulators to the
empty state. -/
def reset (s : IncrementalAverage) : ℚ × IncrementalAverage :=
  (s.compute_average, empty)

/-- Adding a list of values one at a time. -/
def addAll (s : IncrementalAverage) (vs : List ℚ) : IncrementalAverage :=
  vs.foldl add s

end IncrementalAverage

theorem addAll_total (s : IncrementalAverage) (vs : List ℚ) :
    (s.addAll vs).total = s.total + vs.sum := by
  induction vs generalizing s with
  | nil => simp [IncrementalAverage.addAll]
  | cons v vs ih =>
    simp only [IncrementalAverage.addAll, List.foldl_cons, List.sum_cons]
    rw [show (List.foldl IncrementalAverage.add (s.add v) vs) = (s.add v).addAll vs from rfl]
    rw [ih]
    simp [IncrementalAverage.add]
    ring

theorem addAll_counter (s : IncrementalAverage) (vs : List ℚ) :
    (s.addAll vs).counter = s.counter + vs.length := by
  induction vs generalizing s with
  | nil => simp [IncrementalAverage.addAll]
  | cons v vs ih =>
    simp only [IncrementalAverage.addAll, List.foldl_cons, List.length_cons]
    rw [show (List.foldl IncrementalAverage.add (s.add v) vs) = (s.add v).addAll vs from rfl]
    rw [ih]
    simp [IncrementalAverage.add]
    omega

theorem addAll_max_from (vs : List ℚ) (s : IncrementalAverage) (m0 : ℚ)
    (h : s.maxVal = some m0) :
    ∃ m, (s.addAll vs).maxVal = some m ∧ (m = m0 ∨ m ∈ vs) ∧ m0 ≤ m ∧
      ∀ v ∈ vs, v ≤ m := by
  induction vs generalizing s m0 with
  | nil => exact ⟨m0, by simpa [IncrementalAverage.addAll] using h, Or.inl rfl, le_refl _, by simp⟩
  | cons v vs ih =>
    have hstep : (s.add v).maxVal = some (max m0 v) := by
      simp [IncrementalAverage.add, h]
    obtain ⟨m, hm, hmem, hle, hub⟩ := ih (s.add v) (max m0 v) hstep
    refine ⟨m, hm, ?_, le_trans (le_max_left _ _) hle, ?_⟩
    · rcases hmem with h1 | h1
      · rcases le_total m0 v with hc | hc
        · exact Or.inr (by simp [h1, max_eq_right hc])
        · exact Or.inl (by rw [h1, max_eq_left hc])
      · exact Or.inr (List.mem_cons_of_mem _ h1)
    · intro w hw
      rcases List.mem_cons.mp hw with h1 | h1
      · exact h1 ▸ le_trans (le_max_right _ _) hle
      · exact hub w h1

theorem addAll_min_from (vs : List ℚ) (s : IncrementalAverage) (m0 : ℚ)
    (h : s.minVal = some m0) :
    ∃ m, (s.addAll vs).minVal = some m ∧ (m = m0 ∨ m ∈ vs) ∧ m ≤ m0 ∧
      ∀ v ∈ vs, m ≤ v := by
  induction vs generalizing s m0 with
  | nil => exact ⟨m0, by simpa [IncrementalAverage.addAll] using h, Or.inl rfl, le_refl _, by simp⟩
  | cons v vs ih =>
    have hstep : (s.add v).minVal = some (min m0 v) := by
      simp [IncrementalAverage.add, h]
    obtain ⟨m, hm, hmem, hle, hlb⟩ := ih (s.add v) (min m0 v) hstep
    refine ⟨m, hm, ?_, le_trans hle (min_le_left _ _), ?_⟩
    · rcases hmem with h1 | h1
      · rcases le_total m0 v with hc | hc
        · exact Or.inl (by rw [h1, min_eq_left hc])
        · exact Or.inr (by simp [h1, min_eq_right hc])
      · exact Or.inr (List.mem_cons_of_mem _ h1)
    · intro w hw
      rcases List.mem_cons.mp hw with h1 | h1
      · exact h1 ▸ le_trans hle (min_le_right _ _)
      · exact hlb w h1

/-- C7: after adding values `v1..vn` (`n ≥ 1`) to a fresh accumulator, the
average equals `sum/n`, the max (resp. min) is a member of the values that
bounds them all from above (resp. below); `reset` returns the pre-reset
average and clears to the empty state so that a subsequent `add x` yields
average `x`; querying the empty accumulator is defined (average `0`, max and
min empty) and does not crash. -/
theorem IncrementalAverage_spec (vs : List ℚ) (x : ℚ) (hne : vs ≠ []) :
    (IncrementalAverage.empty.addAll vs).compute_average = vs.sum / vs.length ∧
    (∃ m, (IncrementalAverage.empty.addAll vs).maxVal = some m ∧
      m ∈ vs ∧ ∀ v ∈ vs, v ≤ m) ∧
    (∃ m, (IncrementalAverage.empty.addAll vs).minVal = some m ∧
      m ∈ vs ∧ ∀ v ∈ vs, m ≤ v) ∧
    ((IncrementalAverage.empty.addAll vs).reset).1 =
      (IncrementalAverage.empty.addAll vs).compute_average ∧
    ((IncrementalAverage.empty.addAll vs).reset).2 = IncrementalAverage.empty ∧
    ((((IncrementalAverage.empty.addAll vs).reset).2).add x).compute_average = x ∧
    IncrementalAverage.empty.compute_average = 0 ∧
    IncrementalAverage.empty.maxVal = none ∧
    IncrementalAverage.empty.minVal = none := by
  obtain ⟨v, rest, rfl⟩ := List.exists_cons_of_ne_nil hne
  have htot : (IncrementalAverage.empty.addAll (v :: rest)).total = (v :: rest).sum := by
    rw [addAll_total]; simp [IncrementalAverage.empty]
  have hcnt : (IncrementalAverage.empty.addAll (v :: rest)).counter = (v :: rest).length := by
    rw [addAll_counter]; simp [IncrementalAverage.empty]
  have hcnt0 : (IncrementalAverage.empty.addAll (v :: rest)).counter ≠ 0 := by
    rw [hcnt]; simp
  refine ⟨?_, ?_, ?_, rfl, rfl, ?_, ?_, rfl, rfl⟩
  · simp [IncrementalAverage.compute_average, hcnt0, htot, hcnt]
  · have hstart : (IncrementalAverage.empty.add v).maxVal = some v := by
      simp [IncrementalAverage.add, IncrementalAverage.empty]
    obtain ⟨m, hm, hmem, hle, hub⟩ := addAll_max_from rest (IncrementalAverage.empty.add v) v hstart
    refine ⟨m, hm, ?_, ?_⟩
    · rcases hmem with h1 | h1
      · simp [h1]
      · exact List.mem_cons_of_mem _ h1
    · intro w hw
      rcases List.mem_cons.mp hw with h1 | h1
      · exact h1 ▸ hle
      · exact hub w h1
  · have hstart : (IncrementalAverage.empty.add v).minVal = some v := by
      simp [IncrementalAverage.add, IncrementalAverage.empty]
    obtain ⟨m, hm, hmem, hle, hlb⟩ := addAll_min_from rest (IncrementalAverage.empty.add v) v hstart
    refine ⟨m, hm, ?_, ?_⟩
    · rcases hmem with h1 | h1
      · simp [h1]
      · exact List.mem_cons_of_mem _ h1
    · intro w hw
      rcases List.mem_cons.mp hw with h1 | h1
      · exact h1 ▸ hle
      · exact hlb w h1
  · simp [IncrementalAverage.reset, IncrementalAverage.add, IncrementalAverage.empty,
      IncrementalAverage.compute_average]
  · simp [IncrementalAverage.compute_average, IncrementalAverage.empty]

/-- Witness for C7 at `vs = [3, 1, 2]`, `x = 5`. -/
theorem IncrementalAverage_spec_witness :
    [(3 : ℚ), 1, 2] ≠ [] ∧
    ((IncrementalAverage.empty.addAll [(3 : ℚ), 1, 2]).compute_average =
        ([(3 : ℚ), 1, 2]).sum / ([(3 : ℚ), 1, 2]).length ∧
     (∃ m, (IncrementalAverage.empty.addAll [(3 : ℚ), 1, 2]).maxVal = some m ∧
       m ∈ [(3 : ℚ), 1, 2] ∧ ∀ v ∈ [(3 : ℚ), 1, 2], v ≤ m) ∧
     (∃ m, (IncrementalAverage.empty.addAll [(3 : ℚ), 1, 2]).minVal = some m ∧
       m ∈ [(3 : ℚ), 1, 2] ∧ ∀ v ∈ [(3 : ℚ), 1, 2], m ≤ v) ∧
     ((IncrementalAverage.empty.addAll [(3 : ℚ), 1, 2]).reset).1 =
       (IncrementalAverage.empty.addAll [(3 : ℚ), 1, 2]).compute_average ∧
     ((IncrementalAverage.empty.addAll [(3 : ℚ), 1, 2]).reset).2 = IncrementalAverage.empty ∧
     ((((IncrementalAverage.empty.addAll [(3 : ℚ), 1, 2]).reset).2).add 5).compute_average = 5 ∧
     IncrementalAverage.empty.compute_average = 0 ∧
     IncrementalAverage.empty.maxVal = none ∧
     IncrementalAverage.empty.minVal = none) :=
  ⟨by simp, IncrementalAverage_spec [(3 : ℚ), 1, 2] 5 (by simp)⟩

/-! ## Epsilon-greedy policy schedule -/

/-- Modelled from the spec: `reinforceflow.core.policy.EGreedyPolicy` is not in
the source tree (only callers constructing it are).  Per the spec it holds a
start epsilon, a final epsilon, and a number of anneal steps fixed at
construction. -/
structure EGreedyPolicy where
  eps_start : ℚ
  eps_final : ℚ
  anneal_steps : ℕ
  deriving Repr, DecidableEq

/-- Modelled from the spec: the current epsilon is linearly interpolated from
`eps_start` to `eps_final` over `anneal_steps` globally observed steps, and
stays at `eps_final` afterwards; it is a pure function of the externally
supplied step count. -/
def EGreedyPolicy.epsilon (p : EGreedyPolicy) (step : ℕ) : ℚ :=
  if p.anneal_steps ≤ step then p.eps_final
  else p.eps_start + (p.eps_final - p.eps_start) * step / p.anneal_steps

theorem epsilon_monotone (p : EGreedyPolicy) (hfin : p.eps_final ≤ p.eps_start)
    (s t : ℕ) (hst : s ≤ t) : p.epsilon t ≤ p.epsilon s := by
  unfold EGreedyPolicy.epsilon
  set A := p.anneal_steps with hA
  by_cases ht : A ≤ t
  · rw [if_pos ht]
    by_cases hs : A ≤ s
    · rw [if_pos hs]
    · rw [if_neg hs]
      push_neg at hs
      have hApos : (0 : ℚ) < A := by
        have : 0 < A := by omega
        exact_mod_cast this
      have hq0 : (0 : ℚ) ≤ (s : ℚ) / A := by positivity
      have hq1 : (s : ℚ) / A ≤ 1 := by
        rw [div_le_one hApos]
        exact_mod_cast le_of_lt hs
      have hd : p.eps_final - p.eps_start ≤ 0 := by linarith
      have : (p.eps_final - p.eps_start) * 1 ≤ (p.eps_final - p.eps_start) * ((s : ℚ) / A) :=
        mul_le_mul_of_nonpos_left hq1 hd
      have h2 : (p.eps_final - p.eps_start) * (s : ℚ) / A =
          (p.eps_final - p.eps_start) * ((s : ℚ) / A) := by ring
      rw [h2]
      linarith
  · rw [if_neg ht]
    push_neg at ht
    have hs : ¬ A ≤ s := by omega
    rw [if_neg hs]
    have hApos : (0 : ℚ) < A := by
      have : 0 < A := by omega
      exact_mod_cast this
    have hd : p.eps_final - p.eps_start ≤ 0 := by linarith
    have hts : (s : ℚ) ≤ (t : ℚ) := by exact_mod_cast hst
    have h1 : (p.eps_final - p.eps_start) * (t : ℚ) ≤ (p.eps_final - p.eps_start) * (s : ℚ) :=
      mul_le_mul_of_nonpos_left hts hd
    have h2 : (p.eps_final - p.eps_start) * (t : ℚ) / A ≤
        (p.eps_final - p.eps_start) * (s : ℚ) / A :=
      (div_le_div_iff_of_pos_right hApos).mpr h1
    linarith

theorem epsilon_linear (p : EGreedyPolicy) (s : ℕ) (hs : s + 1 < p.anneal_steps) :
    p.epsilon (s + 1) - p.epsilon s =
      (p.eps_final - p.eps_start) / p.anneal_steps := by
  unfold EGreedyPolicy.epsilon
  have h1 : ¬ p.anneal_steps ≤ s + 1 := by omega
  have h2 : ¬ p.anneal_steps ≤ s := by omega
  rw [if_neg h1, if_neg h2]
  have hA : (p.anneal_steps : ℚ) ≠ 0 := by
    have : 0 < p.anneal_steps := by omega
    exact_mod_cast Nat.pos_iff_ne_zero.mp this
  push_cast
  field_simp
  ring

/-- C8: for every epsilon-greedy policy with `anneal_steps ≥ 1`, epsilon at
step `0` equals `eps_start`, epsilon at any step `≥ anneal_steps` equals
`eps_final`, epsilon is non-increasing whenever `eps_final < eps_start`, and
between the bounds successive steps change epsilon by the constant amount
`(eps_final - eps_start) / anneal_steps` (linearity); epsilon is a pure
function of the supplied step count, hence independent of call order. -/
theorem EGreedyPolicy_epsilon_spec (p : EGreedyPolicy) (h1 : 1 ≤ p.anneal_steps) :
    p.epsilon 0 = p.eps_start ∧
    (∀ step, p.anneal_steps ≤ step → p.epsilon step = p.eps_final) ∧
    (p.eps_final < p.eps_start → ∀ s t, s ≤ t → p.epsilon t ≤ p.epsilon s) ∧
    (∀ s, s + 1 < p.anneal_steps →
      p.epsilon (s + 1) - p.epsilon s =
        (p.eps_final - p.eps_start) / p.anneal_steps) := by
  refine ⟨?_, ?_, ?_, epsilon_linear p⟩
  · unfold EGreedyPolicy.epsilon
    have h0 : ¬ p.anneal_steps ≤ 0 := by omega
    rw [if_neg h0]
    simp
  · intro step hstep
    unfold EGreedyPolicy.epsilon
    rw [if_pos hstep]
  · intro hlt s t hst
    exact epsilon_monotone p (le_of_lt hlt) s t hst

/-- Witness for C8 at `eps_start = 1`, `eps_final = 1/10`, `anneal_steps = 4`. -/
theorem EGreedyPolicy_epsilon_spec_witness :
    1 ≤ (EGreedyPolicy.mk 1 (1/10) 4).anneal_steps ∧
    ((EGreedyPolicy.mk 1 (1/10) 4).epsilon 0 = (EGreedyPolicy.mk 1 (1/10) 4).eps_start ∧
     (∀ step, (EGreedyPolicy.mk 1 (1/10) 4).anneal_steps ≤ step →
       (EGreedyPolicy.mk 1 (1/10) 4).epsilon step = (EGreedyPolicy.mk 1 (1/10) 4).eps_final) ∧
     ((EGreedyPolicy.mk 1 (1/10) 4).eps_final < (EGreedyPolicy.mk 1 (1/10) 4).eps_start →
       ∀ s t, s ≤ t →
         (EGreedyPolicy.mk 1 (1/10) 4).epsilon t ≤ (EGreedyPolicy.mk 1 (1/10) 4).epsilon s) ∧
     (∀ s, s + 1 < (EGreedyPolicy.mk 1 (1/10) 4).anneal_steps →
       (EGreedyPolicy.mk 1 (1/10) 4).epsilon (s + 1) - (EGreedyPolicy.mk 1 (1/10) 4).epsilon s =
         ((EGreedyPolicy.mk 1 (1/10) 4).eps_final - (EGreedyPolicy.mk 1 (1/10) 4).eps_start) /
           (EGreedyPolicy.mk 1 (1/10) 4).anneal_steps)) :=
  ⟨by decide, EGreedyPolicy_epsilon_spec (EGreedyPolicy.mk 1 (1/10) 4) (by decide)⟩

/-! ## Thread learner batch update (`_ThreadDQNLearner`) -/

/-- `np.max` over a nonempty array of action values (empty case defaulted). -/
def npMax : List ℚ → ℚ
  | [] => 0
  | x :: xs => xs.foldl max x

theorem foldl_max_spec (xs : List ℚ) (a : ℚ) :
    (xs.foldl max a = a ∨ xs.foldl max a ∈ xs) ∧ a ≤ xs.foldl max a ∧
      ∀ x ∈ xs, x ≤ xs.foldl max a := by
  induction xs generalizing a with
  | nil => simp
  | cons y ys ih =>
    obtain ⟨hmem, hle, hub⟩ := ih (max a y)
    simp only [List.foldl_cons]
    refine ⟨?_, le_trans (le_max_left a y) hle, ?_⟩
    · rcases hmem with h | h
      · rcases le_total a y with hc | hc
        · exact Or.inr (by rw [h, max_eq_right hc]; exact List.mem_cons_self y ys)
        · exact Or.inl (by rw [h, max_eq_left hc])
      · exact Or.inr (List.mem_cons_of_mem y h)
    · intro x hx
      rcases List.mem_cons.mp hx with h | h
      · subst h; exact le_trans (le_max_right a x) hle
      · exact hub x h

theorem npMax_spec (l : List ℚ) (h : l ≠ []) :
    npMax l ∈ l ∧ ∀ x ∈ l, x ≤ npMax l := by
  obtain ⟨x, xs, rfl⟩ := List.exists_cons_of_ne_nil h
  obtain ⟨hmem, hle, hub⟩ := foldl_max_spec xs x
  constructor
  · rcases hmem with h1 | h1
    · rw [show npMax (x :: xs) = xs.foldl max x from rfl, h1]
      exact List.mem_cons_self x xs
    · exact List.mem_cons_of_mem x h1
  · intro w hw
    rcases List.mem_cons.mp hw with h1 | h1
    · exact h1 ▸ hle
    · exact hub w h1

/-- `np.clip(r, lo, hi)`. -/
def npClip (r lo hi : ℚ) : ℚ := min (max r lo) hi

/-- The coordinator as visible to a thread learner during a batch update:
`AsyncDQNAgent.target_predict`, the target network's action-value prediction
(base_agent.py lines 161-162, read through `self.global_agent` in
async_dqn.py line 322). -/
structure GlobalAgentNet where
  target_predict : ℕ → List ℚ

/-- Per-learner mutable statistics state of `_ThreadDQNLearner`
(`_ep_reward`, `_ep_q`, `_reward_accum`, async_dqn.py lines 284-286). -/
structure LearnerStats where
  ep_reward : IncrementalAverage
  ep_q : IncrementalAverage
  reward_accum : ℚ
  deriving Repr, DecidableEq

/-- `q_selected` of the learner's training graph (async_dqn.py line 295): the
local network's output at the taken action, per batch entry. -/
def q_selected (localNet : ℕ → List ℚ) (obs : List ℕ) (actions : List ℕ) : List ℚ :=
  List.zipWith (fun o a => (localNet o).getD a 0) obs actions

/-- `loss = reduce_mean(square(reward_ph - q_selected))`
(async_dqn.py lines 296-297). -/
def mseLoss (targets qsel : List ℚ) : ℚ :=
  let tds := List.zipWith (fun r q => (r - q) ^ 2) targets qsel
  if tds.length = 0 then 0 else tds.sum / tds.length

/-- `_ThreadDQNLearner._train_on_batch` (async_dqn.py lines 319-334): when
non-terminal, the bootstrap `expected_reward` is `np.max` of the coordinator's
`target_predict(obs_next)` and is added to the `_ep_q` statistic; when
terminal, the bootstrap is `0`, the accumulated episode reward is added to
`_ep_reward` and the accumulator reset.  Rewards are discounted against the
bootstrap and the loss is evaluated from the local network's predictions.
Returns (updated stats, bootstrap value, discounted targets, loss). -/
def trainOnBatch (global_agent : GlobalAgentNet) (localNet : ℕ → List ℚ)
    (st : LearnerStats) (obs : List ℕ) (actions : List ℕ) (rewards : List ℚ)
    (obs_next : ℕ) (term : Bool) (gamma : ℚ) :
    LearnerStats × ℚ × List ℚ × ℚ :=
  if term then
    let targets := discount_rewards rewards gamma 0
    ({ st with ep_reward := st.ep_reward.add st.reward_accum, reward_accum := 0 },
      0, targets, mseLoss targets (q_selected localNet obs actions))
  else
    let expected_reward := npMax (global_agent.target_predict obs_next)
    let targets := discount_rewards rewards gamma expected_reward
    ({ st with ep_q := st.ep_q.add expected_reward },
      expected_reward, targets, mseLoss targets (q_selected localNet obs actions))

/-- The transient trajectory batch built by the inner loop of
`_ThreadDQNLearner.run` (async_dqn.py lines 345, 349-358). -/
structure RolloutBatch where
  batch_obs : List ℕ
  batch_rewards : List ℚ
  batch_actions : List ℕ
  deriving Repr, DecidableEq

/-- One iteration of the rollout-collection loop of `_ThreadDQNLearner.run`
(async_dqn.py lines 349-358): the environment step returned `reward`; the
learner adds the raw reward to `_reward_accum`, then clips it to `[-1, 1]` and
appends the clipped value to the batch. -/
def rolloutStep (st : LearnerStats) (batch : RolloutBatch)
    (obs : ℕ) (action : ℕ) (reward : ℚ) : LearnerStats × RolloutBatch :=
  ({ st with reward_accum := st.reward_accum + reward },
   { batch_obs := batch.batch_obs ++ [obs]
     batch_rewards := batch.batch_rewards ++ [npClip reward (-1) 1]
     batch_actions := batch.batch_actions ++ [action] })

/-- C2: in the thread learner's batch update, a non-terminal rollout
bootstraps with the maximum of the coordinator's target-network prediction for
the successor observation — independent of the learner's local network — while
a terminal rollout bootstraps with `0`, records the accumulated unclipped
episode reward into the learner's episode-reward statistic and resets the
accumulator; each per-step reward enters the trajectory batch clipped to
`[-1, 1]` while the episode accumulator receives the raw reward. -/
theorem thread_learner_batch_spec (g : GlobalAgentNet) (net1 net2 : ℕ → List ℚ)
    (st : LearnerStats) (obs : List ℕ) (actions : List ℕ) (rewards : List ℚ)
    (obs_next : ℕ) (gamma : ℚ) (batch : RolloutBatch) (o a : ℕ) (r : ℚ)
    (hne : g.target_predict obs_next ≠ []) :
    ((trainOnBatch g net1 st obs actions rewards obs_next false gamma).2.1 ∈
        g.target_predict obs_next ∧
      ∀ q ∈ g.target_predict obs_next,
        q ≤ (trainOnBatch g net1 st obs actions rewards obs_next false gamma).2.1) ∧
    (trainOnBatch g net1 st obs actions rewards obs_next false gamma).2.1 =
      (trainOnBatch g net2 st obs actions rewards obs_next false gamma).2.1 ∧
    (trainOnBatch g net1 st obs actions rewards obs_next true gamma).2.1 = 0 ∧
    (trainOnBatch g net1 st obs actions rewards obs_next true gamma).1.ep_reward =
      st.ep_reward.add st.reward_accum ∧
    (trainOnBatch g net1 st obs actions rewards obs_next true gamma).1.reward_accum = 0 ∧
    (rolloutStep st batch o a r).1.reward_accum = st.reward_accum + r ∧
    (rolloutStep st batch o a r).2.batch_rewards =
      batch.batch_rewards ++ [npClip r (-1) 1] := by
  obtain ⟨hmem, hub⟩ := npMax_spec (g.target_predict obs_next) hne
  refine ⟨⟨?_, ?_⟩, rfl, rfl, rfl, rfl, rfl, rfl⟩
  · simpa [trainOnBatch] using hmem
  · simpa [trainOnBatch] using hub

/-- A concrete coordinator target net used to instantiate the C2 theorem. -/
def sampleGlobalNet : GlobalAgentNet := ⟨fun _ => [2, 5, 3]⟩

/-- A concrete learner statistics state used to instantiate the C2 theorem. -/
def sampleStats : LearnerStats := ⟨.empty, .empty, 7⟩

/-- A concrete empty trajectory batch used to instantiate the C2 theorem. -/
def sampleBatch : RolloutBatch := ⟨[], [], []⟩

/-- A concrete local network used to instantiate the C2 theorem. -/
def sampleNet1 : ℕ → List ℚ := fun _ => [0]

/-- A second concrete local network used to instantiate the C2 theorem. -/
def sampleNet2 : ℕ → List ℚ := fun _ => [9]

/-- Witness for C2 at a coordinator target net predicting `[2, 5, 3]`. -/
theorem thread_learner_batch_spec_witness :
    sampleGlobalNet.target_predict 0 ≠ [] ∧
    (((trainOnBatch sampleGlobalNet sampleNet1 sampleStats [0] [0] [1] 0 false (1/2)).2.1 ∈
        sampleGlobalNet.target_predict 0 ∧
      ∀ q ∈ sampleGlobalNet.target_predict 0,
        q ≤ (trainOnBatch sampleGlobalNet sampleNet1 sampleStats [0] [0] [1] 0 false (1/2)).2.1) ∧
     (trainOnBatch sampleGlobalNet sampleNet1 sampleStats [0] [0] [1] 0 false (1/2)).2.1 =
       (trainOnBatch sampleGlobalNet sampleNet2 sampleStats [0] [0] [1] 0 false (1/2)).2.1 ∧
     (trainOnBatch sampleGlobalNet sampleNet1 sampleStats [0] [0] [1] 0 true (1/2)).2.1 = 0 ∧
     (trainOnBatch sampleGlobalNet sampleNet1 sampleStats [0] [0] [1] 0 true (1/2)).1.ep_reward =
       sampleStats.ep_reward.add sampleStats.reward_accum ∧
     (trainOnBatch sampleGlobalNet sampleNet1 sampleStats [0] [0] [1] 0 true (1/2)).1.reward_accum
       = 0 ∧
     (rolloutStep sampleStats sampleBatch 0 1 3).1.reward_accum =
       sampleStats.reward_accum + 3 ∧
     (rolloutStep sampleStats sampleBatch 0 1 3).2.batch_rewards =
       sampleBatch.batch_rewards ++ [npClip 3 (-1) 1]) :=
  ⟨by simp [sampleGlobalNet],
   thread_learner_batch_spec sampleGlobalNet sampleNet1 sampleNet2 sampleStats
     [0] [0] [1] 0 (1/2) sampleBatch 0 1 3 (by simp [sampleGlobalNet])⟩

/-! ## Target network update discipline (coordinator loop) -/

/-- Shared training state as seen by the coordinator's supervisory loop and
the learners (async_dqn.py): `weights` is a version counter of the global
online parameters (bumped by every gradient application), `target` the version
last copied into the target network by `target_update`, `obs_counter` and
`opt_counter` the two shared step counters, `last_target_update` the
coordinator-local observation step of the last target update (async_dqn.py
line 205, 229-231), and `opt_at_target_sync` the optimizer counter value at
the last target sync (used to measure staleness in optimizer steps). -/
structure SyncState where
  weights : ℕ
  target : ℕ
  obs_counter : ℕ
  opt_counter : ℕ
  last_target_update : ℕ
  opt_at_target_sync : ℕ
  deriving Repr, DecidableEq

/-- Interleaved events of the asynchronous system: a learner observation step
(`increment_obs_counter`, async_dqn.py line 350), a learner gradient
application to the shared optimizer/parameters (`self._train_op`, lines
302-303 and 328), and one iteration of the coordinator's target-update check
(lines 229-231). -/
inductive AsyncEvent
  | observe
  | applyGrads
  | coordPoll
  deriving Repr, DecidableEq

/-- One event of the asynchronous system.  Only `coordPoll` — the
coordinator's `if step - last_target_update >= target_freq: target_update()`
(async_dqn.py lines 224, 229-231, with `step = self.obs_counter`) — can touch
the target parameters. -/
def asyncStep (target_freq : ℕ) (s : SyncState) : AsyncEvent → SyncState
  | .observe => { s with obs_counter := s.obs_counter + 1 }
  | .applyGrads => { s with opt_counter := s.opt_counter + 1, weights := s.weights + 1 }
  | .coordPoll =>
      if target_freq ≤ s.obs_counter - s.last_target_update then
        { s with target := s.weights
                 last_target_update := s.obs_counter
                 opt_at_target_sync := s.opt_counter }
      else s

/-- Running the system over a finite interleaving of events. -/
def asyncRun (target_freq : ℕ) (s : SyncState) (es : List AsyncEvent) : SyncState :=
  es.foldl (asyncStep target_freq) s

/-- Target staleness measured in optimizer steps: gradient applications since
the target was last synchronized. -/
def staleness (s : SyncState) : ℕ := s.opt_counter - s.opt_at_target_sync

/-- The initial shared state right after `train` initializes variables. -/
def initSync : SyncState := ⟨0, 0, 0, 0, 0, 0⟩

/-- C3 counterexample: with `target_freq = 2`, three learner batches of one
observation each (three gradient applications) occur before the coordinator's
loop polls again; the target network has then been stale for 3 > 2 optimizer
steps, so staleness is NOT bounded by `target_freq` optimizer steps — the
coordinator's trigger counts observation steps and polls asynchronously. -/
theorem target_staleness_counterexample :
    2 < staleness (asyncRun 2 initSync
      [.observe, .applyGrads, .observe, .applyGrads, .observe, .applyGrads]) := by
  decide

/-- C3 (amended): the target parameter set is updated only by the
coordinator's explicit target-update check — learner events (observation
steps and gradient applications, in any interleaving) never change it and a
gradient application only bumps the optimizer counter and online weights —
and the coordinator's check copies the current global weights into the target
exactly when at least `target_freq` *observation* steps (not optimizer steps)
have elapsed since the last target update it performed. -/
theorem target_update_discipline (target_freq : ℕ) (s : SyncState)
    (es : List AsyncEvent) (h : AsyncEvent.coordPoll ∉ es) :
    (asyncRun target_freq s es).target = s.target ∧
    (asyncStep target_freq s .applyGrads).target = s.target ∧
    (asyncStep target_freq s .applyGrads).opt_counter = s.opt_counter + 1 ∧
    (asyncStep target_freq s .applyGrads).weights = s.weights + 1 ∧
    (target_freq ≤ s.obs_counter - s.last_target_update →
      (asyncStep target_freq s .coordPoll).target = s.weights ∧
      (asyncStep target_freq s .coordPoll).last_target_update = s.obs_counter) ∧
    (s.obs_counter - s.last_target_update < target_freq →
      asyncStep target_freq s .coordPoll = s) := by
  refine ⟨?_, rfl, rfl, rfl, ?_, ?_⟩
  · induction es generalizing s with
    | nil => rfl
    | cons e es ih =>
      have he : e ≠ AsyncEvent.coordPoll := fun hc => h (hc ▸ List.mem_cons_self e es)
      have hes : AsyncEvent.coordPoll ∉ es := fun hc => h (List.mem_cons_of_mem e hc)
      have hstep : (asyncStep target_freq s e).target = s.target := by
        cases e with
        | observe => rfl
        | applyGrads => rfl
        | coordPoll => exact absurd rfl he
      calc (asyncRun target_freq s (e :: es)).target
          = (asyncRun target_freq (asyncStep target_freq s e) es).target := rfl
        _ = (asyncStep target_freq s e).target := ih _ hes
        _ = s.target := hstep
  · intro htrig
    simp [asyncStep, if_pos htrig]
  · intro hlt
    simp [asyncStep, if_neg (not_le.mpr hlt)]

/-- Witness for the amended C3 at `target_freq = 2` and a learner-only
event list. -/
theorem target_update_discipline_witness :
    AsyncEvent.coordPoll ∉ [AsyncEvent.observe, AsyncEvent.applyGrads] ∧
    ((asyncRun 2 initSync [AsyncEvent.observe, AsyncEvent.applyGrads]).target =
        initSync.target ∧
     (asyncStep 2 initSync .applyGrads).target = initSync.target ∧
     (asyncStep 2 initSync .applyGrads).opt_counter = initSync.opt_counter + 1 ∧
     (asyncStep 2 initSync .applyGrads).weights = initSync.weights + 1 ∧
     (2 ≤ initSync.obs_counter - initSync.last_target_update →
       (asyncStep 2 initSync .coordPoll).target = initSync.weights ∧
       (asyncStep 2 initSync .coordPoll).last_target_update = initSync.obs_counter) ∧
     (initSync.obs_counter - initSync.last_target_update < 2 →
       asyncStep 2 initSync .coordPoll = initSync)) :=
  ⟨by decide, target_update_discipline 2 initSync [.observe, .applyGrads] (by decide)⟩

/-! ## Train-entry validation (`AsyncDQNAgent.train`) -/

/-- The `policy` argument of `AsyncDQNAgent.train`: either a single policy
broadcast to all learners, or an explicit per-learner sequence
(list/tuple/ndarray in the source, async_dqn.py line 170). -/
inductive PolicyArg (P : Type)
  | single (p : P)
  | perThread (ps : List P)

/-- `copy.deepcopy` on a policy value: in a value semantics each learner's
copy is an independent value equal to the original. -/
def deepcopy {P : Type} (p : P) : P := p

/-- The validation prefix of `AsyncDQNAgent.train` (async_dqn.py lines
165-174), executed before any thread learner is constructed: raises for
`num_threads < 1`; raises for a policy sequence whose length differs from
`num_threads`; broadcasts a single policy as one deep copy per learner.  On
success, returns the per-learner policy list subsequently handed to the
spawned learners (lines 179-199); an error return means no learner is ever
spawned. -/
def trainValidatePolicies {P : Type} (num_threads : ℤ) (policy : PolicyArg P) :
    Except String (List P) :=
  if num_threads < 1 then
    Except.error "Number of threads must be >= 1."
  else
    match policy with
    | .perThread ps =>
        if ps.length ≠ num_threads.toNat then
          Except.error "Amount of policies should be equal to the amount of threads."
        else Except.ok ps
    | .single p => Except.ok (List.replicate num_threads.toNat (deepcopy p))

/-- C4: `AsyncDQNAgent.train` raises a configuration error before spawning
any learner whenever `num_threads < 1`, and whenever the policy is a list
whose length differs from `num_threads`; a single supplied policy is deep-
copied once per learner, so each of the `num_threads` learners receives its
own copy. -/
theorem train_validation_spec {P : Type} (num_threads n2 : ℤ) (p : P) (ps : List P)
    (hn : num_threads < 1) (hn2 : 1 ≤ n2) (hlen : (ps.length : ℤ) ≠ n2) :
    (∀ pol : PolicyArg P, ∃ msg, trainValidatePolicies num_threads pol = .error msg) ∧
    (∃ msg, trainValidatePolicies n2 (PolicyArg.perThread ps) = .error msg) ∧
    trainValidatePolicies n2 (PolicyArg.single p) =
      .ok (List.replicate n2.toNat (deepcopy p)) ∧
    (List.replicate n2.toNat (deepcopy p)).length = n2.toNat ∧
    ∀ q ∈ List.replicate n2.toNat (deepcopy p), q = deepcopy p := by
  have hn2' : ¬ n2 < 1 := not_lt.mpr hn2
  refine ⟨?_, ?_, ?_, List.length_replicate _ _, fun q hq => List.eq_of_mem_replicate hq⟩
  · intro pol
    exact ⟨"Number of threads must be >= 1.", by simp [trainValidatePolicies, if_pos hn]⟩
  · have hne : ps.length ≠ n2.toNat := by omega
    exact ⟨"Amount of policies should be equal to the amount of threads.",
      by simp [trainValidatePolicies, hn2', hne]⟩
  · simp [trainValidatePolicies, hn2']

/-- Witness for C4 at `num_threads = 0`, a 2-element policy list against
`num_threads = 3`, and a single broadcast policy. -/
theorem train_validation_spec_witness :
    (0 : ℤ) < 1 ∧ (1 : ℤ) ≤ 3 ∧ (([(7 : ℕ), 8] : List ℕ).length : ℤ) ≠ 3 ∧
    ((∀ pol : PolicyArg ℕ, ∃ msg, trainValidatePolicies 0 pol = .error msg) ∧
     (∃ msg, trainValidatePolicies 3 (PolicyArg.perThread [(7 : ℕ), 8]) = .error msg) ∧
     trainValidatePolicies 3 (PolicyArg.single (5 : ℕ)) =
       .ok (List.replicate (3 : ℤ).toNat (deepcopy 5)) ∧
     (List.replicate (3 : ℤ).toNat (deepcopy (5 : ℕ))).length = (3 : ℤ).toNat ∧
     ∀ q ∈ List.replicate (3 : ℤ).toNat (deepcopy (5 : ℕ)), q = deepcopy 5) :=
  ⟨by decide, by decide, by decide,
   train_validation_spec 0 3 (5 : ℕ) [7, 8] (by decide) (by decide) (by decide)⟩

/-! ## Idempotency of `AsyncDQNAgent.build_train_graph` -/

/-- The graph-related mutable state of an `AsyncDQNAgent` relevant to
`build_train_graph` (async_dqn.py lines 42-51 and 76-118).  `train_op`
mirrors `self._train_op`, which `__init__` sets to `None`;
`target_networks`, `optimizers` and `savers` count the corresponding graph
objects built so far; `summary_op` mirrors `self._summary_op`. -/
structure AsyncAgentGraph where
  train_op : Option ℕ
  target_networks : ℕ
  optimizers : ℕ
  savers : ℕ
  summary_op : Option ℕ
  deriving Repr, DecidableEq

/-- The state right after `AsyncDQNAgent.__init__` (async_dqn.py lines
42-51): no graph objects built, `_train_op = None`. -/
def initAsyncAgentGraph : AsyncAgentGraph := ⟨none, 0, 0, 0, none⟩

/-- `AsyncDQNAgent.build_train_graph` (async_dqn.py lines 76-118): when
`self._train_op is not None` it warns and returns immediately; otherwise it
builds a target network (lines 97-104), an optimizer (lines 106-110) and a
saver (line 117) and sets `self._summary_op` (line 118).  The method never
assigns `self._train_op` (only the `_ThreadDQNLearner` subclass assigns its
own `_train_op` in its overriding method, line 302).  Returns the new state
and whether the call warned and skipped. -/
def build_train_graph (s : AsyncAgentGraph) : AsyncAgentGraph × Bool :=
  match s.train_op with
  | some _ => (s, true)
  | none =>
      ({ s with target_networks := s.target_networks + 1
                optimizers := s.optimizers + 1
                savers := s.savers + 1
                summary_op := some 0 }, false)

/-- C5 fails on the code: `AsyncDQNAgent.build_train_graph` leaves
`self._train_op` as `None` after a successful first call, so its
`self._train_op is not None` guard never fires — a second call does not warn
and is not a no-op: it re-executes the whole body, duplicating the target
network, optimizer and saver.  Evaluated here at the freshly initialized
agent: after the first build, `train_op` is still `none`, the second call
does not skip, and the resulting state differs from the first call's result
(two target networks built). -/
theorem build_train_graph_not_idempotent :
    (build_train_graph initAsyncAgentGraph).1.train_op = none ∧
    (build_train_graph (build_train_graph initAsyncAgentGraph).1).2 = false ∧
    (build_train_graph (build_train_graph initAsyncAgentGraph).1).1 ≠
      (build_train_graph initAsyncAgentGraph).1 ∧
    (build_train_graph (build_train_graph initAsyncAgentGraph).1).1.target_networks = 2 := by
  decide

/-! ## Supervisory loop: interruption and cleanup (`AsyncDQNAgent.train`) -/

/-- Per-iteration external readings of the supervisory loop of
`AsyncDQNAgent.train` (async_dqn.py lines 218-234): whether some learner
thread is still alive (`has_live_threads`), the current shared observation
counter, and whether a `KeyboardInterrupt` is raised during this iteration's
body (modelled as striking at the start of the `try` block). -/
structure LoopIter where
  live : Bool
  obs : ℕ
  interrupted : Bool
  deriving Repr, DecidableEq

/-- Coordinator-visible effects of the supervisory loop and the epilogue of
`train` (async_dqn.py lines 225-239). -/
inductive TrainAction
  | writeSummary
  | saveWeights
  | targetUpdate
  | closeWriter
  | closeLearner (i : ℕ)
  deriving Repr, DecidableEq

/-- The driver's bookkeeping inside `train`: the cooperative stop flag
`request_stop` (read by every learner's outer loop, async_dqn.py line 343)
and the `last_log_step` / `last_target_update` locals (lines 204-205). -/
structure DriverState where
  request_stop : Bool
  last_log_step : ℕ
  last_target_update : ℕ
  deriving Repr, DecidableEq

/-- One iteration body of the supervisory loop (the `try` block, async_dqn.py
lines 219-234): a `KeyboardInterrupt` is caught by the `except` clause which
sets `request_stop := True` and lets the loop continue; otherwise the
periodic summary/checkpoint check and the target-update check run. -/
def loopBody (log_freq target_freq : ℕ) (st : DriverState) (it : LoopIter) :
    DriverState × List TrainAction :=
  if it.interrupted then ({ st with request_stop := true }, [])
  else
    let r₁ : DriverState × List TrainAction :=
      if log_freq ≤ it.obs - st.last_log_step then
        ({ st with last_log_step := it.obs },
         [TrainAction.writeSummary, TrainAction.saveWeights])
      else (st, [])
    if target_freq ≤ it.obs - r₁.1.last_target_update then
      ({ r₁.1 with last_target_update := it.obs }, r₁.2 ++ [TrainAction.targetUpdate])
    else r₁

/-- The supervisory `while` loop (async_dqn.py line 218): runs while some
learner is alive and the observation counter is below the step budget,
consuming one external reading per iteration; an exhausted reading list
models all learners having exited. -/
def superviseLoop (steps log_freq target_freq : ℕ) :
    DriverState → List LoopIter → DriverState × List TrainAction
  | st, [] => (st, [])
  | st, it :: its =>
      if it.live = true ∧ it.obs < steps then
        let r := loopBody log_freq target_freq st it
        let r' := superviseLoop steps log_freq target_freq r.1 its
        (r'.1, r.2 ++ r'.2)
      else (st, [])

/-- `AsyncDQNAgent.train` from the supervisory loop to the return
(async_dqn.py lines 218-239): after the loop exits, the final checkpoint
save, the summary-writer close, and one close per learner always run, in
that order. -/
def trainSupervise (steps log_freq target_freq num_threads : ℕ)
    (st : DriverState) (its : List LoopIter) : DriverState × List TrainAction :=
  let r := superviseLoop steps log_freq target_freq st its
  (r.1, r.2 ++ [TrainAction.saveWeights, TrainAction.closeWriter] ++
    (List.range num_threads).map TrainAction.closeLearner)

/-- C6: a keyboard interrupt during a supervisory-loop iteration sets the
cooperative stop flag and the loop proceeds with the remaining iterations
(learners are not forcibly terminated), and on every exit of the supervisory
loop the trailing actions of `train` are always the final checkpoint save,
the summary-writer close, and the per-learner closes. -/
theorem train_interrupt_and_cleanup (steps log_freq target_freq num_threads : ℕ)
    (st : DriverState) (it : LoopIter) (its : List LoopIter)
    (hlive : it.live = true) (hobs : it.obs < steps) (hint : it.interrupted = true) :
    loopBody log_freq target_freq st it = ({ st with request_stop := true }, []) ∧
    superviseLoop steps log_freq target_freq st (it :: its) =
      superviseLoop steps log_freq target_freq { st with request_stop := true } its ∧
    ∀ its' : List LoopIter, ∃ acts,
      (trainSupervise steps log_freq target_freq num_threads st its').2 =
        acts ++ [TrainAction.saveWeights, TrainAction.closeWriter] ++
          (List.range num_threads).map TrainAction.closeLearner := by
  have hbody : loopBody log_freq target_freq st it =
      ({ st with request_stop := true }, []) := by
    simp [loopBody, hint]
  refine ⟨hbody, ?_, ?_⟩
  · show (if it.live = true ∧ it.obs < steps then
        let r := loopBody log_freq target_freq st it
        let r' := superviseLoop steps log_freq target_freq r.1 its
        (r'.1, r.2 ++ r'.2)
      else (st, [])) = _
    rw [if_pos ⟨hlive, hobs⟩, hbody]
    simp
  · intro its'
    exact ⟨(superviseLoop steps log_freq target_freq st its').2, rfl⟩

/-- Witness for C6 at an interrupted iteration with a live learner. -/
theorem train_interrupt_and_cleanup_witness :
    (LoopIter.mk true 0 true).live = true ∧ (LoopIter.mk true 0 true).obs < 10 ∧
    (LoopIter.mk true 0 true).interrupted = true ∧
    (loopBody 5 5 (DriverState.mk false 0 0) (LoopIter.mk true 0 true) =
      ({ DriverState.mk false 0 0 with request_stop := true }, []) ∧
     superviseLoop 10 5 5 (DriverState.mk false 0 0) [LoopIter.mk true 0 true] =
       superviseLoop 10 5 5 { DriverState.mk false 0 0 with request_stop := true } [] ∧
     ∀ its' : List LoopIter, ∃ acts,
       (trainSupervise 10 5 5 2 (DriverState.mk false 0 0) its').2 =
         acts ++ [TrainAction.saveWeights, TrainAction.closeWriter] ++
           (List.range 2).map TrainAction.closeLearner) :=
  ⟨rfl, by decide, rfl,
   train_interrupt_and_cleanup 10 5 5 2 (DriverState.mk false 0 0)
     (LoopIter.mk true 0 true) [] rfl (by decide) rfl⟩

/-! ## Checkpoint loading (`BaseDQNAgent.load_weights`) -/

/-- The filesystem and checkpoint index as seen by `load_weights`
(base_agent.py lines 145-152): `os.path.exists`, `tf.gfile.IsDirectory`,
`tf.train.latest_checkpoint` (the newest checkpoint inside a directory, if
any), and the parameter values stored at a checkpoint path (as read by
`Saver.restore`). -/
structure CheckpointStore where
  path_exists : String → Bool
  is_directory : String → Bool
  latest_ckpt : String → Option String
  stored_weights : String → Option (List ℚ)

/-- Online and target parameter values of a `BaseDQNAgent`. -/
structure AgentWeights where
  weights : List ℚ
  target_weights : List ℚ
  deriving Repr, DecidableEq

/-- `BaseDQNAgent.target_update` (base_agent.py lines 164-165, executing the
positional assignments built at lines 115-119): copies every online weight
into the target network. -/
def target_update (s : AgentWeights) : AgentWeights :=
  { s with target_weights := s.weights }

/-- Failures of `load_weights`: the `ValueError` raised for a missing path
(base_agent.py lines 146-147) and a failed restore (the external
`Saver.restore` failing when a directory holds no checkpoint or the
checkpoint data is unreadable). -/
inductive LoadError
  | missingPath (path : String)
  | restoreFailure
  deriving Repr, DecidableEq

/-- The message of the error raised by `load_weights` (base_agent.py
line 147). -/
def LoadError.message : LoadError → String
  | .missingPath p => "Checkpoint path/dir " ++ p ++ " does not exists."
  | .restoreFailure => "Restore failed."

/-- base_agent.py lines 148-149: a directory argument is resolved to the
latest checkpoint inside it; a file argument is used as-is. -/
def resolve_checkpoint (fs : CheckpointStore) (checkpoint : String) : Option String :=
  if fs.is_directory checkpoint then fs.latest_ckpt checkpoint else some checkpoint

/-- `BaseDQNAgent.load_weights` (base_agent.py lines 145-152): raises a
`ValueError` naming the path when it does not exist; otherwise resolves a
directory to its latest checkpoint, restores the stored weights into the
online network, and finishes with `target_update()`. -/
def load_weights (fs : CheckpointStore) (checkpoint : String) (s : AgentWeights) :
    Except LoadError AgentWeights :=
  if fs.path_exists checkpoint = false then
    Except.error (LoadError.missingPath checkpoint)
  else
    match resolve_checkpoint fs checkpoint with
    | none => Except.error LoadError.restoreFailure
    | some c =>
        match fs.stored_weights c with
        | none => Except.error LoadError.restoreFailure
        | some w => Except.ok (target_update { s with weights := w })

/-- C9: for every path that does not exist on the filesystem, `load_weights`
fails with an error whose message names the missing path, and no agent state
is restored. -/
theorem load_weights_missing_path (fs : CheckpointStore) (p : String)
    (s : AgentWeights) (h : fs.path_exists p = false) :
    load_weights fs p s = Except.error (LoadError.missingPath p) ∧
    (∃ pre post, (LoadError.missingPath p).message = pre ++ p ++ post) ∧
    ∀ s', load_weights fs p s ≠ Except.ok s' := by
  have hload : load_weights fs p s = Except.error (LoadError.missingPath p) := by
    simp [load_weights, h]
  exact ⟨hload, ⟨"Checkpoint path/dir ", " does not exists.", rfl⟩,
    fun s' hs' => by rw [hload] at hs'; exact Except.noConfusion hs'⟩

/-- A filesystem with no existing paths, used to instantiate C9. -/
def emptyStore : CheckpointStore :=
  ⟨fun _ => false, fun _ => false, fun _ => none, fun _ => none⟩

/-- Witness for C9 at the path `/tmp/ckpt` on an empty filesystem. -/
theorem load_weights_missing_path_witness :
    emptyStore.path_exists "/tmp/ckpt" = false ∧
    (load_weights emptyStore "/tmp/ckpt" (AgentWeights.mk [] []) =
       Except.error (LoadError.missingPath "/tmp/ckpt") ∧
     (∃ pre post, (LoadError.missingPath "/tmp/ckpt").message = pre ++ "/tmp/ckpt" ++ post) ∧
     ∀ s', load_weights emptyStore "/tmp/ckpt" (AgentWeights.mk [] []) ≠ Except.ok s') :=
  ⟨rfl, load_weights_missing_path emptyStore "/tmp/ckpt" (AgentWeights.mk [] []) rfl⟩

/-- C10: whenever `load_weights` succeeds, the target weights equal the
restored online weights (the method always ends with `target_update()`), and
the restored weights come from the supplied path itself or — when the path is
a directory — from the latest checkpoint found in that directory. -/
theorem load_weights_target_sync (fs : CheckpointStore) (p : String)
    (s res : AgentWeights) (h : load_weights fs p s = Except.ok res) :
    res.target_weights = res.weights ∧
    ∃ c, fs.stored_weights c = some res.weights ∧
      (fs.is_directory p = true → fs.latest_ckpt p = some c) ∧
      (fs.is_directory p = false → c = p) := by
  unfold load_weights at h
  by_cases hex : fs.path_exists p = false
  · rw [if_pos hex] at h
    exact absurd h (by simp)
  · rw [if_neg hex] at h
    cases hrc : resolve_checkpoint fs p with
    | none => rw [hrc] at h; exact absurd h (by simp)
    | some c =>
      rw [hrc] at h
      simp only [] at h
      cases hsw : fs.stored_weights c with
      | none => rw [hsw] at h; exact absurd h (by simp)
      | some w =>
        rw [hsw] at h
        have hres : target_update { s with weights := w } = res := by
          exact Except.ok.inj h
        have hw : res.weights = w := by rw [← hres]; rfl
        have htw : res.target_weights = res.weights := by rw [← hres]; rfl
        refine ⟨htw, c, by rw [hw]; exact hsw, ?_, ?_⟩
        · intro hdir
          unfold resolve_checkpoint at hrc
          rw [if_pos hdir] at hrc
          exact hrc
        · intro hdir
          unfold resolve_checkpoint at hrc
          rw [if_neg (by simp [hdir])] at hrc
          exact (Option.some.inj hrc).symm

/-- A filesystem with one directory `dir` holding one checkpoint, used to
instantiate C10. -/
def dirStore : CheckpointStore :=
  ⟨fun _ => true,
   fun q => q = "dir",
   fun q => if q = "dir" then some "dir/model.ckpt-1" else none,
   fun q => if q = "dir/model.ckpt-1" then some [1, 2] else none⟩

/-- Witness for C10: loading from the directory `dir` restores the latest
checkpoint `dir/model.ckpt-1` and leaves target weights equal to the
restored online weights. -/
theorem load_weights_target_sync_witness :
    load_weights dirStore "dir" (AgentWeights.mk [0, 0] [9, 9]) =
      Except.ok (AgentWeights.mk [1, 2] [1, 2]) ∧
    ((AgentWeights.mk [(1 : ℚ), 2] [1, 2]).target_weights =
       (AgentWeights.mk [(1 : ℚ), 2] [1, 2]).weights ∧
     ∃ c, dirStore.stored_weights c =
         some (AgentWeights.mk [(1 : ℚ), 2] [1, 2]).weights ∧
       (dirStore.is_directory "dir" = true → dirStore.latest_ckpt "dir" = some c) ∧
       (dirStore.is_directory "dir" = false → c = "dir")) :=
  ⟨by rfl,
   load_weights_target_sync dirStore "dir" (AgentWeights.mk [0, 0] [9, 9])
     (AgentWeights.mk [1, 2] [1, 2]) (by rfl)⟩

end ReinforceFlow
